import Mathlib

/-!
Verification of the EDGAR client (`pkg/edgar/client.go`).

Embedding conventions:
* Decoded JSON (`interface{}` after `encoding/json` unmarshalling) is the
  inductive `JsonValue`; Go's `float64` JSON numbers are modelled as `ℚ`.
* Go maps (`map[string]interface{}`) are association lists; key lookup is
  `lookupJson` (deterministic), while *iteration* over a map is iteration
  over the association list, whose order models the (unspecified) Go map
  iteration order of one run.
* Go string comparison (`<`, `<=`) is byte-wise lexicographic; for valid
  UTF-8 this equals code-point order, modelled by `strLt` / `strLe`.
* Functions returning `error` are modelled with `Option` (`none` = error);
  an out-of-bounds slice index (a Go panic) is also modelled as `none`.
-/

/-- Decoded JSON value, as produced by Go's `encoding/json` into `interface{}`. -/
inductive JsonValue where
  | str (s : String)
  | num (q : ℚ)
  | jbool (b : Bool)
  | null
  | arr (xs : List JsonValue)
  | obj (fields : List (String × JsonValue))

/-- Lookup of a key in a decoded JSON object (Go map indexing `m[k]`). -/
def lookupJson (fields : List (String × JsonValue)) (k : String) : Option JsonValue :=
  match fields with
  | [] => none
  | (k2, v) :: rest => if k2 = k then some v else lookupJson rest k

/-- Byte-wise lexicographic `<=` on character lists (Go string `<=`). -/
def charsLe : List Char → List Char → Bool
  | [], _ => true
  | _ :: _, [] => false
  | a :: as, b :: bs =>
    if a.toNat < b.toNat then true
    else if b.toNat < a.toNat then false
    else charsLe as bs

/-- Go string comparison `a <= b`. -/
def strLe (a b : String) : Bool := charsLe a.data b.data

/-- Go string comparison `a < b` (strict byte-wise lexicographic order). -/
def strLt (a b : String) : Bool := strLe a b && !(strLe b a)

/-- ASCII lowering of one character, as Go's `strings.ToLower` acts on the
ASCII unit names that occur here. -/
def lowerChar (c : Char) : Char :=
  if 65 ≤ c.toNat ∧ c.toNat ≤ 90 then Char.ofNat (c.toNat + 32) else c

/-- Model of `strings.ToLower`. -/
def lowerStr (s : String) : String := ⟨s.data.map lowerChar⟩

/-- Whether `n` is a prefix of `h` (helper for substring search). -/
def charsBeginsWith : List Char → List Char → Bool
  | _, [] => true
  | [], _ :: _ => false
  | a :: as, b :: bs => a == b && charsBeginsWith as bs

/-- Whether character list `n` occurs inside `h` (helper for `containsSub`). -/
def charsHasSub (n : List Char) : List Char → Bool
  | [] => n.isEmpty
  | c :: t => charsBeginsWith (c :: t) n || charsHasSub n t

/-- Model of `strings.Contains s pat`. -/
def containsSub (s pat : String) : Bool := charsHasSub pat.data s.data

/-- Test used by `extractMetric` on a unit name:
`strings.Contains(strings.ToLower(unitType), "usd")`. -/
def usdUnitName (unitType : String) : Bool := containsSub (lowerStr unitType) "usd"

/-- Numeric value of a list of decimal digit characters. -/
def digitsVal (l : List Char) : ℕ := l.foldl (fun a c => 10 * a + (c.toNat - 48)) 0

/-- Parse a non-empty all-digit character list. -/
def parseNatChars (l : List Char) : Option ℕ :=
  if l ≠ [] ∧ l.all Char.isDigit then some (digitsVal l) else none

/-- Split a character list at the first occurrence of a character satisfying `p`;
returns the part before and, when found, the part strictly after. -/
def splitAtChar (p : Char → Bool) : List Char → List Char × Option (List Char)
  | [] => ([], none)
  | c :: t =>
    if p c then ([], some t)
    else
      let r := splitAtChar p t
      (c :: r.1, r.2)

/-- Parse an optionally signed decimal exponent part. -/
def parseExpChars (l : List Char) : Option ℤ :=
  match l with
  | '+' :: t => (parseNatChars t).map Int.ofNat
  | '-' :: t => (parseNatChars t).map (fun n => -(Int.ofNat n))
  | t => (parseNatChars t).map Int.ofNat

/-- Parse an unsigned decimal mantissa `digits[.digits]` (at least one digit
in total, digits only). -/
def parseMantissaChars (l : List Char) : Option ℚ :=
  let s := splitAtChar (fun c => c == '.') l
  match s.2 with
  | none => (parseNatChars l).map (fun n => (n : ℚ))
  | some frac =>
    if (s.1 ++ frac) ≠ [] ∧ (s.1 ++ frac).all Char.isDigit then
      some ((digitsVal s.1 : ℚ) + (digitsVal frac : ℚ) / (10 : ℚ) ^ frac.length)
    else none

/-- Model of `strconv.ParseFloat(s, 64)` on decimal notation
`[+-]digits[.digits][(e|E)[+-]digits]` (the notation occurring in this data;
special forms such as `Inf`, `NaN` or hexadecimal floats are not modelled and
parse as `none`). Returns the exact rational value. -/
def parseFloat? (s : String) : Option ℚ :=
  let (sign, body) :=
    match s.data with
    | '+' :: t => ((1 : ℚ), t)
    | '-' :: t => ((-1 : ℚ), t)
    | t => ((1 : ℚ), t)
  let e := splitAtChar (fun c => c == 'e' || c == 'E') body
  match e.2 with
  | none => (parseMantissaChars body).map (fun m => sign * m)
  | some expPart =>
    match parseMantissaChars e.1, parseExpChars expPart with
    | some m, some ex => some (sign * m * (10 : ℚ) ^ ex)
    | _, _ => none

/-- Accumulator state of `findValueForDate`: the local variables
`bestValue`, `bestDate`, `bestScore`. -/
structure BestState where
  value : ℚ
  date : String
  score : ℤ

/-- String at key "end" of a data point (`dataPoint["end"].(string)`);
`none` when the key is absent or not a string. -/
def endOf (dp : JsonValue) : Option String :=
  match dp with
  | .obj fields =>
    match lookupJson fields "end" with
    | some (.str s) => some s
    | _ => none
  | _ => none

/-- String at key "form" of a data point (`dataPoint["form"].(string)`). -/
def formOf (dp : JsonValue) : Option String :=
  match dp with
  | .obj fields =>
    match lookupJson fields "form" with
    | some (.str s) => some s
    | _ => none
  | _ => none

/-- Usable numeric value of a data point: `dataPoint["val"]` as a `float64`,
or as a string that `strconv.ParseFloat` accepts. -/
def valOf (dp : JsonValue) : Option ℚ :=
  match dp with
  | .obj fields =>
    match lookupJson fields "val" with
    | some (.num v) => some v
    | some (.str s) => parseFloat? s
    | _ => none
  | _ => none

/-- Form bonus of the scoring switch in `findValueForDate`:
+50 for "10-Q", +10 for "10-K", 0 otherwise. -/
def formBonus (form : String) : ℤ :=
  if form = "10-Q" then 50 else if form = "10-K" then 10 else 0

/-- Score of one data point in `findValueForDate`, given the current
`bestDate`: +100 on exact target-date match, the form bonus, and +25 when
the end date is `<=` the target and `>` the current best date. -/
def scoreOf (target bestDate date form : String) : ℤ :=
  (if date = target then 100 else 0) + formBonus form +
    (if strLe date target && strLt bestDate date then 25 else 0)

/-- One iteration of the loop body of `findValueForDate`: a data point whose
"end" and "form" are strings is scored; the state is replaced when it scores
higher (or ties with a later end date) and carries a usable value. -/
def pointUpdate (target : String) (st : BestState) (item : JsonValue) : BestState :=
  match endOf item with
  | none => st
  | some date =>
    match formOf item with
    | none => st
    | some form =>
      if scoreOf target st.date date form > st.score ∨
          (scoreOf target st.date date form = st.score ∧ strLt st.date date = true) then
        match valOf item with
        | some v => ⟨v, date, scoreOf target st.date date form⟩
        | none => st
      else st

/-- Model of `findValueForDate` (client.go): fold the loop body over the data
array starting from `bestValue = 0`, `bestDate = ""`, `bestScore = 0`, and
return the final `bestValue`. -/
def findValueForDate (dataArray : List JsonValue) (targetDate : String) : ℚ :=
  (dataArray.foldl (pointUpdate targetDate) ⟨0, "", 0⟩).value

/-- Per-unit step of `extractMetric`: a unit whose (lowered) name contains
"usd" and whose data is an array yields the best value for the report date
when that value is nonzero; every other unit yields nothing. -/
def unitValue (t : String) (p : String × JsonValue) : Option ℚ :=
  if usdUnitName p.1 then
    match p.2 with
    | .arr dataArray =>
      let v := findValueForDate dataArray t
      if v = 0 then none else some v
    | _ => none
  else none

/-- Iteration of `extractMetric` over a tag's units map (one run's iteration
order): the first unit yielding a value wins. -/
def usdUnitsValue (units : List (String × JsonValue)) (t : String) : Option ℚ :=
  match units with
  | [] => none
  | p :: rest =>
    match unitValue t p with
    | some v => some v
    | none => usdUnitsValue rest t

/-- Value yielded by one candidate tag in `extractMetric`: the tag must be
present as an object, its "units" key an object; its units are then searched. -/
def tagValue (usGaap : List (String × JsonValue)) (tag t : String) : Option ℚ :=
  match lookupJson usGaap tag with
  | some (.obj concept) =>
    match lookupJson concept "units" with
    | some (.obj units) => usdUnitsValue units t
    | _ => none
  | _ => none

/-- Model of `extractMetric` (client.go): try candidate tag names in order,
returning the first nonzero best value; `none` models the
"metric not found" error, which leaves `*result` unwritten. -/
def extractMetric (usGaap : List (String × JsonValue)) (tagNames : List String)
    (t : String) : Option ℚ :=
  match tagNames with
  | [] => none
  | tag :: rest =>
    match tagValue usGaap tag t with
    | some v => some v
    | none => extractMetric usGaap rest t

/-- Round half to even, as `strconv.FormatFloat(v, 'f', 0, 64)` and
`fmt.Sprintf("%.0f", v)` round. -/
def roundHalfEven (q : ℚ) : ℤ :=
  let f := ⌊q⌋
  let r := q - f
  if r < 1 / 2 then f
  else if 1 / 2 < r then f + 1
  else if f % 2 = 0 then f else f + 1

/-- Decimal rendering of a number with no fractional digits, modelling
`strconv.FormatFloat(v, 'f', 0, 64)`. -/
def formatFloat0 (q : ℚ) : String := toString (roundHalfEven q)

mutual

/-- Rendering of a decoded JSON value by `fmt.Sprintf("%v", v)`, up to
formatting details not exercised by any claim (no claim inspects the
rendering of non-scalar or numeric values). -/
def renderGo : JsonValue → String
  | .str s => s
  | .num q => toString q.num
  | .jbool b => if b then "true" else "false"
  | .null => "<nil>"
  | .arr xs => "[" ++ renderGoList xs ++ "]"
  | .obj fs => "map[" ++ renderGoObj fs ++ "]"

def renderGoList : List JsonValue → String
  | [] => ""
  | [x] => renderGo x
  | x :: y :: t => renderGo x ++ " " ++ renderGoList (y :: t)

def renderGoObj : List (String × JsonValue) → String
  | [] => ""
  | [(k, v)] => k ++ ":" ++ renderGo v
  | (k, v) :: p :: t => k ++ ":" ++ renderGo v ++ " " ++ renderGoObj (p :: t)

end

/-- Model of `Client.toString` (client.go): safe conversion of a decoded
JSON value to a string. JSON decoding never produces a Go `int`, so that
case does not arise. -/
def goToString (v : JsonValue) : String :=
  match v with
  | .null => ""
  | .str s => s
  | .num q => formatFloat0 q
  | .jbool b => if b then "1" else "0"
  | x => renderGo x

/-- Model of the `CompanyFacts` struct: entity name, the weakly typed CIK
field, and the facts map (`none` models a nil map). -/
structure CompanyFacts where
  cik : JsonValue
  entity : String
  facts : Option (List (String × JsonValue))

/-- Model of `CompanyFacts.GetCIKString`: a decoded JSON CIK is a string or
a `float64` number (rendered with no fractional digits); other shapes fall
through to the default rendering. -/
def getCIKString (cf : CompanyFacts) : String :=
  match cf.cik with
  | .str s => s
  | .num q => formatFloat0 q
  | x => renderGo x

/-- Model of the `Filing` struct (all fields are strings). -/
structure Filing where
  accessionNumber : String
  filingDate : String
  reportDate : String
  form : String
  fileNumber : String
  filmNumber : String
  items : String
  size : String
  isXBRL : String
  isInlineXBRL : String
  primaryDocument : String
  primaryDocDesc : String

/-- Model of the `CashFlowMetrics` struct. -/
structure CashFlowMetrics where
  companyName : String
  cik : String
  filingDate : String
  reportDate : String
  netCashFromOperatingActivities : ℚ
  capitalExpenditures : ℚ
  freeCashFlow : ℚ
  form : String
  accessionNumber : String

/-- Model of the `EBITDAMetrics` struct. -/
structure EBITDAMetrics where
  companyName : String
  cik : String
  filingDate : String
  reportDate : String
  form : String
  accessionNumber : String
  revenue : ℚ
  netIncome : ℚ
  interestExpense : ℚ
  incomeTaxExpense : ℚ
  depreciationAndAmortization : ℚ
  ebitda : ℚ
  ebitdaMargin : ℚ

/-- Candidate tags for operating cash flow (extractCashFlowData). -/
def opCashTags : List String :=
  ["NetCashProvidedByUsedInOperatingActivities",
   "NetCashFromOperatingActivities",
   "CashProvidedByUsedInOperatingActivities"]

/-- Candidate tags for capital expenditures (extractCashFlowData). -/
def capExTags : List String :=
  ["PaymentsToAcquirePropertyPlantAndEquipment",
   "CapitalExpenditures",
   "PaymentsForPropertyPlantAndEquipment",
   "PaymentsToAcquireProductiveAssets"]

/-- Location of the us-gaap taxonomy shared by the extract functions:
`none` when the facts map is nil or the "us-gaap" entry is absent or not an
object (the error paths of extractCashFlowData and extractEBITDAData). -/
def gaapOf (facts : CompanyFacts) : Option (List (String × JsonValue)) :=
  match facts.facts with
  | none => none
  | some factsMap =>
    match lookupJson factsMap "us-gaap" with
    | some (.obj usGaap) => some usGaap
    | _ => none

/-- Field extraction of `extractCashFlowData` within a located us-gaap
taxonomy: each metric field is overwritten only when its extraction succeeds
(the error is merely logged). -/
def extractCashFlowDataGaap (usGaap : List (String × JsonValue))
    (m : CashFlowMetrics) (reportDate : String) : CashFlowMetrics :=
  let m1 :=
    match extractMetric usGaap opCashTags reportDate with
    | some v => { m with netCashFromOperatingActivities := v }
    | none => m
  let m2 :=
    match extractMetric usGaap capExTags reportDate with
    | some v => { m1 with capitalExpenditures := v }
    | none => m1
  m2

/-- Model of `extractCashFlowData` (client.go): fails only when the facts map
is nil or the "us-gaap" entry is absent or not an object; otherwise the
fields are extracted within the taxonomy. -/
def extractCashFlowData (facts : CompanyFacts) (m : CashFlowMetrics)
    (reportDate : String) : Option CashFlowMetrics :=
  match gaapOf facts with
  | none => none
  | some usGaap => some (extractCashFlowDataGaap usGaap m reportDate)

/-- Model of `ParseCashFlowMetricsFromFacts` (client.go): build the metrics
record from the filing metadata, extract the cash-flow fields, then set
`FreeCashFlow = NetCashFromOperatingActivities - CapitalExpenditures`. -/
def parseCashFlowMetricsFromFacts (facts : CompanyFacts) (filing : Filing) :
    Option CashFlowMetrics :=
  let m0 : CashFlowMetrics :=
    { companyName := facts.entity
      cik := getCIKString facts
      filingDate := filing.filingDate
      reportDate := filing.reportDate
      netCashFromOperatingActivities := 0
      capitalExpenditures := 0
      freeCashFlow := 0
      form := filing.form
      accessionNumber := filing.accessionNumber }
  match extractCashFlowData facts m0 filing.reportDate with
  | none => none
  | some m =>
    some { m with freeCashFlow := m.netCashFromOperatingActivities - m.capitalExpenditures }

/-- Model of `ParseCashFlowMetrics` (client.go): identical to
`parseCashFlowMetricsFromFacts` once the HTTP fetch of the company facts has
succeeded (the fetch itself is plumbing; its result is the `facts` input). -/
def parseCashFlowMetrics (facts : CompanyFacts) (filing : Filing) :
    Option CashFlowMetrics :=
  let m0 : CashFlowMetrics :=
    { companyName := facts.entity
      cik := getCIKString facts
      filingDate := filing.filingDate
      reportDate := filing.reportDate
      netCashFromOperatingActivities := 0
      capitalExpenditures := 0
      freeCashFlow := 0
      form := filing.form
      accessionNumber := filing.accessionNumber }
  match extractCashFlowData facts m0 filing.reportDate with
  | none => none
  | some m =>
    some { m with freeCashFlow := m.netCashFromOperatingActivities - m.capitalExpenditures }

/-- Candidate tags for revenue (extractEBITDAData). -/
def revenueTags : List String :=
  ["Revenues",
   "RevenueFromContractWithCustomerExcludingAssessedTax",
   "SalesRevenueNet",
   "RevenueFromContractWithCustomerIncludingAssessedTax",
   "Revenue",
   "SalesRevenueGoodsNet",
   "RevenuesNetOfInterestExpense"]

/-- Candidate tags for net income (extractEBITDAData). -/
def netIncomeTags : List String :=
  ["NetIncomeLoss",
   "ProfitLoss",
   "NetIncomeLossAvailableToCommonStockholdersBasic",
   "IncomeLossFromContinuingOperations"]

/-- Candidate tags for interest expense (extractEBITDAData). -/
def interestTags : List String :=
  ["InterestExpense",
   "InterestExpenseDebt",
   "InterestAndDebtExpense",
   "InterestExpenseNet"]

/-- Candidate tags for income tax expense (extractEBITDAData). -/
def taxTags : List String :=
  ["IncomeTaxExpenseBenefit",
   "ProvisionForIncomeTaxes",
   "IncomeTaxesPaid",
   "CurrentIncomeTaxExpenseBenefit"]

/-- Candidate tags for combined depreciation and amortization. -/
def daTags : List String :=
  ["DepreciationDepletionAndAmortization",
   "Depreciation",
   "DepreciationAndAmortization",
   "AmortizationOfIntangibleAssets",
   "DepreciationAmortizationAndAccretionNet"]

/-- Fallback candidate tags for depreciation alone. -/
def depTags : List String := ["Depreciation", "DepreciationNonproduction"]

/-- Fallback candidate tags for amortization alone. -/
def amortTags : List String := ["AmortizationOfIntangibleAssets", "Amortization"]

/-- Field extraction of `extractEBITDAData` within a located us-gaap
taxonomy: each component field is overwritten only when its extraction
succeeds; when the combined depreciation-and-amortization extraction fails,
separately extracted depreciation and amortization figures are added to the
(still zero) field. -/
def extractEBITDADataGaap (usGaap : List (String × JsonValue))
    (m : EBITDAMetrics) (reportDate : String) : EBITDAMetrics :=
  let m1 :=
    match extractMetric usGaap revenueTags reportDate with
    | some v => { m with revenue := v }
    | none => m
  let m2 :=
    match extractMetric usGaap netIncomeTags reportDate with
    | some v => { m1 with netIncome := v }
    | none => m1
  let m3 :=
    match extractMetric usGaap interestTags reportDate with
    | some v => { m2 with interestExpense := v }
    | none => m2
  let m4 :=
    match extractMetric usGaap taxTags reportDate with
    | some v => { m3 with incomeTaxExpense := v }
    | none => m3
  let m5 :=
    match extractMetric usGaap daTags reportDate with
    | some v => { m4 with depreciationAndAmortization := v }
    | none =>
      let m4a :=
        match extractMetric usGaap depTags reportDate with
        | some d =>
          { m4 with depreciationAndAmortization := m4.depreciationAndAmortization + d }
        | none => m4
      match extractMetric usGaap amortTags reportDate with
      | some a =>
        { m4a with depreciationAndAmortization := m4a.depreciationAndAmortization + a }
      | none => m4a
  m5

/-- Model of `extractEBITDAData` (client.go): fails only when the facts map
is nil or "us-gaap" is absent or not an object; otherwise the component
fields are extracted within the taxonomy. -/
def extractEBITDAData (facts : CompanyFacts) (m : EBITDAMetrics)
    (reportDate : String) : Option EBITDAMetrics :=
  match gaapOf facts with
  | none => none
  | some usGaap => some (extractEBITDADataGaap usGaap m reportDate)

/-- Model of `ParseEBITDAMetricsFromFacts` (client.go): build the metrics
record from the filing metadata, extract the components, set
`EBITDA = NetIncome + InterestExpense + IncomeTaxExpense +
DepreciationAndAmortization`, and set the margin to
`EBITDA / Revenue * 100` when the revenue is nonzero and to 0 otherwise. -/
def parseEBITDAMetricsFromFacts (facts : CompanyFacts) (filing : Filing) :
    Option EBITDAMetrics :=
  let m0 : EBITDAMetrics :=
    { companyName := facts.entity
      cik := getCIKString facts
      filingDate := filing.filingDate
      reportDate := filing.reportDate
      form := filing.form
      accessionNumber := filing.accessionNumber
      revenue := 0
      netIncome := 0
      interestExpense := 0
      incomeTaxExpense := 0
      depreciationAndAmortization := 0
      ebitda := 0
      ebitdaMargin := 0 }
  match extractEBITDAData facts m0 filing.reportDate with
  | none => none
  | some m =>
    let m1 := { m with ebitda :=
      m.netIncome + m.interestExpense + m.incomeTaxExpense + m.depreciationAndAmortization }
    if m1.revenue ≠ (0 : ℚ) then
      some { m1 with ebitdaMargin := m1.ebitda / m1.revenue * 100 }
    else
      some { m1 with ebitdaMargin := 0 }

/-- Keys of the parallel arrays read by `parseFilings` besides
"accessionNumber". -/
def filingKeys : List String :=
  ["filingDate", "reportDate", "form", "fileNumber", "filmNumber", "items",
   "size", "isXBRL", "isInlineXBRL", "primaryDocument", "primaryDocDescription"]

/-- Model of one iteration of the `parseFilings` loop: index `i` of every
parallel array; a missing index is a Go out-of-range panic, modelled `none`. -/
def parseFilingAt (recent : String → List JsonValue) (i : ℕ) : Option Filing := do
  let a ← (recent "accessionNumber")[i]?
  let fd ← (recent "filingDate")[i]?
  let rd ← (recent "reportDate")[i]?
  let fo ← (recent "form")[i]?
  let fn ← (recent "fileNumber")[i]?
  let fm ← (recent "filmNumber")[i]?
  let it ← (recent "items")[i]?
  let sz ← (recent "size")[i]?
  let ix ← (recent "isXBRL")[i]?
  let ii ← (recent "isInlineXBRL")[i]?
  let pd ← (recent "primaryDocument")[i]?
  let pe ← (recent "primaryDocDescription")[i]?
  some { accessionNumber := goToString a
         filingDate := goToString fd
         reportDate := goToString rd
         form := goToString fo
         fileNumber := goToString fn
         filmNumber := goToString fm
         items := goToString it
         size := goToString sz
         isXBRL := goToString ix
         isInlineXBRL := goToString ii
         primaryDocument := goToString pd
         primaryDocDesc := goToString pe }

/-- Sequencing of an option-valued function over a list (the `parseFilings`
loop, which aborts the whole run on the first out-of-range panic). -/
def optMap (f : ℕ → Option Filing) : List ℕ → Option (List Filing)
  | [] => some []
  | i :: is =>
    match f i with
    | none => none
    | some x =>
      match optMap f is with
      | none => none
      | some xs => some (x :: xs)

/-- Model of `parseFilings` (client.go): an empty "accessionNumber" array
yields the empty list; otherwise one `Filing` is built per index of
"accessionNumber", reading the same index of every parallel array. A Go map
is total with `[]` as the value of absent keys (a nil slice has length 0). -/
def parseFilings (recent : String → List JsonValue) : Option (List Filing) :=
  let count := (recent "accessionNumber").length
  if count = 0 then some []
  else optMap (parseFilingAt recent) (List.range count)

/-- Sort of the 10-Q filing list: `sort.Slice` with the comparator
`filings[i].FilingDate > filings[j].FilingDate`, i.e. descending filing
date. `sort.Slice` promises some order consistent with the comparator; the
model fixes the merge-sort order, and every property proved about it
(element multiset and descending date order) holds of any such order. -/
def sortByFilingDateDesc (l : List Filing) : List Filing :=
  l.mergeSort (fun a b => strLe b.filingDate a.filingDate)

/-- Model of `GetMostRecent10Q` (client.go) after the submissions fetch:
parse the recent filings, keep those with form "10-Q", error when none
remain, else sort by descending filing date and return the first. -/
def getMostRecent10Q (recent : String → List JsonValue) : Option Filing :=
  match parseFilings recent with
  | none => none
  | some filings =>
    let tenQFilings := filings.filter (fun f => f.form = "10-Q")
    if tenQFilings.isEmpty then none
    else (sortByFilingDateDesc tenQFilings).head?

/-- Model of `GetMostRecent4TenQs` (client.go) after the submissions fetch:
as `getMostRecent10Q`, but returning the first `min 4 n` sorted filings. -/
def getMostRecent4TenQs (recent : String → List JsonValue) : Option (List Filing) :=
  match parseFilings recent with
  | none => none
  | some filings =>
    let tenQFilings := filings.filter (fun f => f.form = "10-Q")
    if tenQFilings.isEmpty then none
    else some ((sortByFilingDateDesc tenQFilings).take 4)

/-- Best observation kept by the scoring rule as the spec words it. -/
structure ClaimBest where
  value : ℚ
  date : String
  score : ℤ

/-- State of the selection loop as the spec words it: the kept best
observation (none before any observation is kept) and the latest end date
`<=` the target seen so far. -/
structure ClaimState where
  best : Option ClaimBest
  latestSeen : Option String

/-- Modelled from the spec: the score the spec assigns to an observation,
"+100 if its period-end date exactly equals the target date; +50 if its
source form is the quarterly form type, +10 if annual; +25 if its end date
is ≤ target date and is the latest such date seen so far". -/
def claimedScore (target : String) (latestSeen : Option String)
    (date form : String) : ℤ :=
  (if date = target then 100 else 0) + formBonus form +
    (if strLe date target &&
        (match latestSeen with
         | none => true
         | some m => strLe m date) then 25 else 0)

/-- Modelled from the spec: one step of the selection rule as the spec words
it — score the observation, record its end date among the dates seen, and
"keep the observation with the highest score; ties broken by preferring the
later end date". -/
def claimedUpdate (target : String) (st : ClaimState) (item : JsonValue) :
    ClaimState :=
  match endOf item, formOf item, valOf item with
  | some date, some form, some v =>
    let score := claimedScore target st.latestSeen date form
    let seen :=
      if strLe date target then
        match st.latestSeen with
        | none => some date
        | some m => if strLe m date then some date else some m
      else st.latestSeen
    let best :=
      match st.best with
      | none => some ⟨v, date, score⟩
      | some b =>
        if score > b.score ∨ (score = b.score ∧ strLt b.date date = true) then
          some ⟨v, date, score⟩
        else some b
    ⟨best, seen⟩
  | _, _, _ => st

/-- Modelled from the spec: the best-value selection exactly as claim C2
words it, to be compared with `findValueForDate`. -/
def claimedFindValueForDate (dataArray : List JsonValue) (targetDate : String) : ℚ :=
  match (dataArray.foldl (claimedUpdate targetDate) ⟨none, none⟩).best with
  | some b => b.value
  | none => 0

/-- Loop body of the amended description of `findValueForDate`: identical
scoring to the code, with the recency bonus granted when the end date is
`<=` the target and strictly later than the end date of the *currently kept
best* observation (initially the empty string), considering only
observations that carry a usable numeric value. -/
def amendedUpdate (target : String) (st : BestState) (item : JsonValue) : BestState :=
  match endOf item, formOf item, valOf item with
  | some date, some form, some v =>
    let score :=
      (if date = target then 100 else 0) + formBonus form +
        (if strLe date target && strLt st.date date then 25 else 0)
    if score > st.score ∨ (score = st.score ∧ strLt st.date date = true) then
      ⟨v, date, score⟩
    else st
  | _, _, _ => st

/-- Best-value selection as amended claim C2 describes it. -/
def amendedFindValueForDate (dataArray : List JsonValue) (targetDate : String) : ℚ :=
  (dataArray.foldl (amendedUpdate targetDate) ⟨0, "", 0⟩).value

/-- Modelled from the spec: an upper bound on the score claim C3 can assign
to an observation under any reading of "latest such date seen so far" — the
recency bonus is granted whenever the end date is `<=` the target. -/
def specObservationScoreCap (target : String) (dp : JsonValue) : ℤ :=
  match endOf dp, formOf dp with
  | some date, some form =>
    (if date = target then 100 else 0) + formBonus form +
      (if strLe date target then 25 else 0)
  | _, _ => 0

/-- Observation data point with the given end date, form and numeric value. -/
def obsPoint (e f : String) (v : ℚ) : JsonValue :=
  .obj [("end", .str e), ("form", .str f), ("val", .num v)]

/-- Series refuting the spec's wording of the recency bonus (claim C2), for
target date "d": the code prefers the third observation, the spec's scoring
keeps the first. -/
def exC2Series : List JsonValue :=
  [obsPoint "a" "10-Q" 1, obsPoint "c" "zz" 2, obsPoint "b" "10-Q" 3]

/-- Series whose only observation scores 0 for target "d" (its end date "e"
exceeds the target and its form is neither quarterly nor annual). -/
def exC3Series : List JsonValue := [obsPoint "e" "xx" 5]

/-- Taxonomy whose only tag carries `exC3Series` in a USD unit. -/
def exC3Gaap : List (String × JsonValue) :=
  [("TagA", .obj [("units", .obj [("USD", .arr exC3Series)])])]

/-- Taxonomy for claim C4: "TagA" has a USD series whose best value is 0 (an
empty data array), "TagB" a USD series yielding 5. -/
def exC4GaapA : List (String × JsonValue) :=
  [("TagA", .obj [("units", .obj [("USD", .arr [])])]),
   ("TagB", .obj [("units", .obj [("USD", .arr [obsPoint "d" "10-Q" 5])])])]

/-- Same as `exC4GaapA` except that the later tag "TagB" yields 7. -/
def exC4GaapB : List (String × JsonValue) :=
  [("TagA", .obj [("units", .obj [("USD", .arr [])])]),
   ("TagB", .obj [("units", .obj [("USD", .arr [obsPoint "d" "10-Q" 7])])])]

/-- Units map with two USD-denominated unit series of different values, in
one iteration order. -/
def exC6Units1 : List (String × JsonValue) :=
  [("USD", .arr [obsPoint "d" "10-Q" 2]),
   ("USD/shares", .arr [obsPoint "d" "10-Q" 3])]

/-- The same units map as `exC6Units1` in the other iteration order. -/
def exC6Units2 : List (String × JsonValue) :=
  [("USD/shares", .arr [obsPoint "d" "10-Q" 3]),
   ("USD", .arr [obsPoint "d" "10-Q" 2])]

/-- Taxonomy carrying `exC6Units1` under tag "T". -/
def exC6GaapA : List (String × JsonValue) :=
  [("T", .obj [("units", .obj exC6Units1)])]

/-- Taxonomy carrying `exC6Units2` under tag "T". -/
def exC6GaapB : List (String × JsonValue) :=
  [("T", .obj [("units", .obj exC6Units2)])]

/-- Units map with a single USD-denominated unit series. -/
def exC6SingleUnits : List (String × JsonValue) :=
  [("USD", .arr [obsPoint "d" "10-Q" 2])]

/-- Company facts for witnesses: a present but empty us-gaap taxonomy. -/
def exFactsW : CompanyFacts :=
  { cik := .str "320193", entity := "E", facts := some [("us-gaap", .obj [])] }

/-- Filing for witnesses. -/
def exFilingW : Filing :=
  { accessionNumber := "acc-1", filingDate := "2024-05-01", reportDate := "2024-03-31"
    form := "10-Q", fileNumber := "001", filmNumber := "99", items := "", size := "100"
    isXBRL := "1", isInlineXBRL := "1", primaryDocument := "doc.htm", primaryDocDesc := "10-Q" }

/-- Cash-flow record produced by `parseCashFlowMetricsFromFacts` on
`exFactsW` and `exFilingW` (all extractions miss, fields stay zero). -/
def exCFOutW : CashFlowMetrics :=
  { companyName := "E", cik := "320193", filingDate := "2024-05-01"
    reportDate := "2024-03-31", netCashFromOperatingActivities := 0
    capitalExpenditures := 0, freeCashFlow := 0 - 0, form := "10-Q"
    accessionNumber := "acc-1" }

/-- EBITDA record produced by `parseEBITDAMetricsFromFacts` on `exFactsW`
and `exFilingW` (all extractions miss, fields stay zero). -/
def exEBITDAOutW : EBITDAMetrics :=
  { companyName := "E", cik := "320193", filingDate := "2024-05-01"
    reportDate := "2024-03-31", form := "10-Q", accessionNumber := "acc-1"
    revenue := 0, netIncome := 0, interestExpense := 0, incomeTaxExpense := 0
    depreciationAndAmortization := 0, ebitda := 0 + 0 + 0 + 0, ebitdaMargin := 0 }

/-- Recent-filings map for witnesses: two filings, one of them a 10-Q, with
every parallel array of length 2. -/
def exRecentW : String → List JsonValue := fun k =>
  if k = "accessionNumber" then [.str "acc-1", .str "acc-2"]
  else if k = "form" then [.str "10-Q", .str "8-K"]
  else if k = "filingDate" then [.str "2024-05-01", .str "2024-06-01"]
  else [.str "x", .str "y"]

/-- Series containing an exact-date 10-Q observation for target "d",
besides a competing non-matching observation. -/
def exC1Series : List JsonValue := [obsPoint "b" "8-K" 9, obsPoint "d" "10-Q" 7]

/-- Reflexivity of the byte-wise order. -/
theorem charsLe_refl (l : List Char) : charsLe l l = true := by
  induction l with
  | nil => rfl
  | cons a t ih => simp [charsLe, ih]

/-- Totality of the byte-wise order. -/
theorem charsLe_total (a b : List Char) : charsLe a b = true ∨ charsLe b a = true := by
  induction a generalizing b with
  | nil => left; rfl
  | cons x xs ih =>
    cases b with
    | nil => right; rfl
    | cons y ys =>
      by_cases h1 : x.toNat < y.toNat
      · left; simp [charsLe, h1]
      · by_cases h2 : y.toNat < x.toNat
        · right; simp [charsLe, h1, h2]
        · rcases ih ys with h | h
          · left; simp [charsLe, h1, h2, h]
          · right; simp [charsLe, h1, h2, h]

/-- Transitivity of the byte-wise order. -/
theorem charsLe_trans {a b c : List Char} (h1 : charsLe a b = true)
    (h2 : charsLe b c = true) : charsLe a c = true := by
  induction a generalizing b c with
  | nil => rfl
  | cons x xs ih =>
    cases b with
    | nil => simp [charsLe] at h1
    | cons y ys =>
      cases c with
      | nil => simp [charsLe] at h2
      | cons z zs =>
        simp only [charsLe] at h1 h2 ⊢
        split_ifs at h1 h2 ⊢ <;> first | rfl | omega | exact ih h1 h2

/-- Totality of `strLe` at the `Filing` comparator. -/
theorem strLe_total (a b : String) : strLe a b = true ∨ strLe b a = true :=
  charsLe_total a.data b.data

/-- Pointwise agreement of the code's loop body with the amended
description (the code merely postpones the value check to after the
keep decision, which does not change the resulting state). -/
theorem pointUpdate_eq_amended (t : String) (st : BestState) (dp : JsonValue) :
    pointUpdate t st dp = amendedUpdate t st dp := by
  unfold pointUpdate amendedUpdate scoreOf
  rcases hE : endOf dp with _ | d
  · rfl
  · rcases hF : formOf dp with _ | f
    · rfl
    · rcases hV : valOf dp with _ | v
      · simp only []
        exact ite_self st
      · rfl

/-- C2 (amended): `findValueForDate` scores each well-formed observation as
+100 for an exact end-date match, +50 for form "10-Q", +10 for form "10-K",
and +25 when its end date is `<=` the target and strictly later than the end
date of the currently kept best observation (initially the empty string); it
keeps the observation carrying a usable numeric value with the highest
score, ties broken by preferring the later end date, starting from value 0,
empty date and score 0. -/
theorem findValueForDate_amended_scoring (arr : List JsonValue) (t : String) :
    findValueForDate arr t = amendedFindValueForDate arr t := by
  unfold findValueForDate amendedFindValueForDate
  rw [funext fun st => funext fun dp => pointUpdate_eq_amended t st dp]

/-- C2 (counterexample): on a concrete series the code and the spec's
scoring rule select different observations — the spec's "+25 if the end date
is the latest such date seen so far" denies the third observation the
recency bonus (an end date "c" > "b" was already seen), while the code
grants it (the bonus compares with the kept best's date "a" < "b"), so the
code returns 3 while the spec's rule returns 1. -/
theorem findValueForDate_claimed_scoring_cex :
    findValueForDate exC2Series "d" = 3 ∧
      claimedFindValueForDate exC2Series "d" = 1 ∧
      findValueForDate exC2Series "d" ≠ claimedFindValueForDate exC2Series "d" := by
  refine ⟨rfl, rfl, ?_⟩
  rw [show findValueForDate exC2Series "d" = 3 from rfl,
    show claimedFindValueForDate exC2Series "d" = 1 from rfl]
  decide

/-- C3 (counterexample): `extractMetric` returns a value (5) from a series
whose only observation scores 0 under any reading of the claimed scoring
(its end date exceeds the target, its form is neither "10-Q" nor "10-K"):
the loop's tie-break at equal score 0 against the initial empty date still
records the observation, so "no score > 0" does not imply "not found". -/
theorem extractMetric_notfound_cex :
    extractMetric exC3Gaap ["TagA"] "d" = some 5 ∧
      ∀ dp ∈ exC3Series, specObservationScoreCap "d" dp ≤ 0 := by
  refine ⟨rfl, ?_⟩
  intro dp hdp
  simp only [exC3Series, List.mem_singleton] at hdp
  subst hdp
  decide

/-- C3 (amended): `extractMetric` signals "not found" iff every candidate
tag yields nothing — a tag yields nothing iff, whenever it is present with
a units object, every USD-named unit holding a data array has best value 0
under `findValueForDate` (units that are not USD-named or not arrays never
yield). A zero stored value counts as "not found", and an observation can
win with score 0, so the boundary is "best value zero", not "score zero". -/
theorem extractMetric_none_iff (g : List (String × JsonValue))
    (tags : List String) (t : String) :
    (extractMetric g tags t = none ↔ ∀ tag ∈ tags, tagValue g tag t = none) ∧
      (∀ name dv, unitValue t (name, dv) = none ↔
        (usdUnitName name = true → ∀ a, dv = .arr a → findValueForDate a t = 0)) := by
  constructor
  · induction tags with
    | nil => simp [extractMetric]
    | cons tag rest ih =>
      simp only [extractMetric]
      cases h : tagValue g tag t with
      | none => simp [h, ih]
      | some v => simp [h]
  · intro name dv
    constructor
    · intro h hu a ha
      subst ha
      unfold unitValue at h
      simp only [hu, if_true] at h
      by_cases hz : findValueForDate a t = 0
      · exact hz
      · simp [hz] at h
    · intro h
      unfold unitValue
      by_cases hu : usdUnitName name = true
      · cases dv with
        | arr a =>
          have hz := h hu a rfl
          simp [hu, hz]
        | str s => simp [hu]
        | num q => simp [hu]
        | jbool b => simp [hu]
        | null => simp [hu]
        | obj fs => simp [hu]
      · simp only [Bool.not_eq_true] at hu
        simp [hu]

/-- C4 (counterexample): with candidate order ["TagA", "TagB"], "TagA" is
present with a USD-denominated series (an empty data array, best value 0),
yet the result is taken from the later tag "TagB", and changing only
"TagB"'s data changes the result from 5 to 7 — so a later candidate does
influence the result even though an earlier tag has a USD series. -/
theorem extractMetric_first_tag_cex :
    extractMetric exC4GaapA ["TagA", "TagB"] "d" = some 5 ∧
      extractMetric exC4GaapB ["TagA", "TagB"] "d" = some 7 ∧
      lookupJson exC4GaapA "TagA" = lookupJson exC4GaapB "TagA" ∧
      some (5 : ℚ) ≠ some (7 : ℚ) := by
  refine ⟨rfl, rfl, rfl, by decide⟩

/-- C4 (amended): `extractMetric` uses the first candidate tag that yields a
*nonzero* best value from one of its USD-denominated series; once such a tag
is found no later candidate influences the result, while a tag yielding
nothing (absent, malformed, or best value 0 in every USD series) is skipped
and the remaining candidates are consulted. -/
theorem extractMetric_first_nonzero_tag (g : List (String × JsonValue))
    (tag : String) (rest : List String) (t : String) :
    (∀ v, tagValue g tag t = some v → extractMetric g (tag :: rest) t = some v) ∧
      (tagValue g tag t = none →
        extractMetric g (tag :: rest) t = extractMetric g rest t) := by
  constructor
  · intro v hv
    simp [extractMetric, hv]
  · intro hn
    simp [extractMetric, hn]

/-- C4 (witness): applying the amended claim at tag "TagB" of `exC4GaapA`,
whose value is 5. -/
theorem extractMetric_first_nonzero_tag_witness :
    tagValue exC4GaapA "TagB" "d" = some 5 ∧
      extractMetric exC4GaapA ["TagB", "TagA"] "d" = some 5 :=
  ⟨rfl, (extractMetric_first_nonzero_tag exC4GaapA "TagB" ["TagA"] "d").1 5 rfl⟩

/-- C3 (witness): applying the amended claim to conclude "not found" for a
candidate list whose only tag is absent from the taxonomy. -/
theorem extractMetric_none_iff_witness :
    extractMetric exC3Gaap ["TagB"] "d" = none :=
  (extractMetric_none_iff exC3Gaap ["TagB"] "d").1.mpr (by
    intro tag htag
    simp only [List.mem_singleton] at htag
    subst htag
    rfl)

/-- C8: every record returned by `parseEBITDAMetricsFromFacts` satisfies
EBITDA = net income + interest expense + income tax expense + depreciation
and amortization, and EBITDA margin = EBITDA / revenue × 100 when the
revenue is nonzero, 0 when the revenue is zero. -/
theorem parseEBITDA_formula (facts : CompanyFacts) (filing : Filing)
    (m : EBITDAMetrics) (h : parseEBITDAMetricsFromFacts facts filing = some m) :
    m.ebitda = m.netIncome + m.interestExpense + m.incomeTaxExpense +
        m.depreciationAndAmortization ∧
      (m.revenue ≠ 0 → m.ebitdaMargin = m.ebitda / m.revenue * 100) ∧
      (m.revenue = 0 → m.ebitdaMargin = 0) := by
  simp only [parseEBITDAMetricsFromFacts] at h
  split at h
  · exact absurd h (by simp)
  · next me heq =>
    split at h <;>
      (simp only [Option.some.injEq] at h
       subst h
       refine ⟨rfl, ?_, ?_⟩ <;> intro hr <;> simp_all)

/-- C8 (witness): the formula theorem applied to a concrete parse whose
extractions all miss. -/
theorem parseEBITDA_formula_witness :
    parseEBITDAMetricsFromFacts exFactsW exFilingW = some exEBITDAOutW ∧
      (exEBITDAOutW.ebitda = exEBITDAOutW.netIncome + exEBITDAOutW.interestExpense +
          exEBITDAOutW.incomeTaxExpense + exEBITDAOutW.depreciationAndAmortization ∧
        (exEBITDAOutW.revenue ≠ 0 →
          exEBITDAOutW.ebitdaMargin = exEBITDAOutW.ebitda / exEBITDAOutW.revenue * 100) ∧
        (exEBITDAOutW.revenue = 0 → exEBITDAOutW.ebitdaMargin = 0)) :=
  ⟨rfl, parseEBITDA_formula exFactsW exFilingW exEBITDAOutW rfl⟩

/-- C9: every record returned by `parseCashFlowMetricsFromFacts` or by
`parseCashFlowMetrics` satisfies
FreeCashFlow = NetCashFromOperatingActivities − CapitalExpenditures. -/
theorem parseCashFlow_fcf (facts : CompanyFacts) (filing : Filing) :
    (∀ m, parseCashFlowMetricsFromFacts facts filing = some m →
        m.freeCashFlow = m.netCashFromOperatingActivities - m.capitalExpenditures) ∧
      (∀ m, parseCashFlowMetrics facts filing = some m →
        m.freeCashFlow = m.netCashFromOperatingActivities - m.capitalExpenditures) := by
  constructor <;>
    (intro m h
     first
       | simp only [parseCashFlowMetricsFromFacts] at h
       | simp only [parseCashFlowMetrics] at h
     split at h
     · exact absurd h (by simp)
     · simp only [Option.some.injEq] at h
       subst h
       rfl)

/-- C9 (witness): the free-cash-flow identity applied to a concrete parse. -/
theorem parseCashFlow_fcf_witness :
    parseCashFlowMetricsFromFacts exFactsW exFilingW = some exCFOutW ∧
      exCFOutW.freeCashFlow =
        exCFOutW.netCashFromOperatingActivities - exCFOutW.capitalExpenditures :=
  ⟨rfl, (parseCashFlow_fcf exFactsW exFilingW).1 exCFOutW rfl⟩


/-- Unfolding of the loop body in the absence of a string "end" field. -/
theorem pointUpdate_none_end (t : String) (st : BestState) {dp : JsonValue}
    (hE : endOf dp = none) : pointUpdate t st dp = st := by
  unfold pointUpdate
  rw [hE]

/-- Unfolding of the loop body in the absence of a string "form" field. -/
theorem pointUpdate_none_form (t : String) (st : BestState) {dp : JsonValue}
    {d : String} (hE : endOf dp = some d) (hF : formOf dp = none) :
    pointUpdate t st dp = st := by
  unfold pointUpdate
  rw [hE, hF]

/-- Unfolding of the loop body on a data point with string "end" and "form"
fields. -/
theorem pointUpdate_eq (t : String) (st : BestState) {dp : JsonValue}
    {d f : String} (hE : endOf dp = some d) (hF : formOf dp = some f) :
    pointUpdate t st dp =
      if scoreOf t st.date d f > st.score ∨
          (scoreOf t st.date d f = st.score ∧ strLt st.date d = true) then
        match valOf dp with
        | some v => ⟨v, d, scoreOf t st.date d f⟩
        | none => st
      else st := by
  unfold pointUpdate
  rw [hE, hF]

/-- Case analysis on the loop body: the state is either kept unchanged or
replaced by a well-formed observation carrying its score. -/
theorem pointUpdate_cases (t : String) (st : BestState) (dp : JsonValue) :
    pointUpdate t st dp = st ∨
      ∃ d f v, endOf dp = some d ∧ formOf dp = some f ∧ valOf dp = some v ∧
        st.score ≤ scoreOf t st.date d f ∧
        pointUpdate t st dp = ⟨v, d, scoreOf t st.date d f⟩ := by
  rcases hE : endOf dp with _ | d
  · left
    exact pointUpdate_none_end t st hE
  · rcases hF : formOf dp with _ | f
    · left
      exact pointUpdate_none_form t st hE hF
    · rw [pointUpdate_eq t st hE hF]
      by_cases hc : scoreOf t st.date d f > st.score ∨
          (scoreOf t st.date d f = st.score ∧ strLt st.date d = true)
      · rw [if_pos hc]
        rcases hV : valOf dp with _ | v
        · left; rfl
        · right
          refine ⟨d, f, v, rfl, rfl, rfl, ?_, rfl⟩
          rcases hc with hgt | ⟨heq, _⟩
          · exact le_of_lt hgt
          · exact le_of_eq heq.symm
      · rw [if_neg hc]
        left
        rfl

/-- The loop body never decreases the running best score. -/
theorem pointUpdate_score_mono (t : String) (st : BestState) (dp : JsonValue) :
    st.score ≤ (pointUpdate t st dp).score := by
  rcases pointUpdate_cases t st dp with h | ⟨d, f, v, _, _, _, hle, h⟩
  · rw [h]
  · rw [h]
    exact hle

/-- Folding the loop body never decreases the running best score. -/
theorem foldl_score_mono (t : String) (l : List JsonValue) (st : BestState) :
    st.score ≤ (l.foldl (pointUpdate t) st).score := by
  induction l generalizing st with
  | nil => exact le_refl _
  | cons x xs ih => exact le_trans (pointUpdate_score_mono t st x) (ih _)

/-- Lower bound of the score of an exact-date 10-Q observation. -/
theorem scoreOf_exact_tenQ (t bd : String) : 150 ≤ scoreOf t bd t "10-Q" := by
  unfold scoreOf formBonus
  split_ifs <;> first | omega | exact absurd rfl (by assumption)

/-- Only an exact-date 10-Q observation can score at least 150. -/
theorem eq_of_scoreOf_ge_150 {t bd d f : String} (h : 150 ≤ scoreOf t bd d f) :
    d = t ∧ f = "10-Q" := by
  unfold scoreOf formBonus at h
  split_ifs at h <;> first | (exact ⟨by assumption, by assumption⟩) | omega

/-- Processing a usable exact-date 10-Q observation leaves the running best
score at 150 or more. -/
theorem pointUpdate_exact_tenQ_score (t : String) (st : BestState) (dp : JsonValue)
    (hE : endOf dp = some t) (hF : formOf dp = some "10-Q")
    (hV : (valOf dp).isSome = true) : 150 ≤ (pointUpdate t st dp).score := by
  have hs := scoreOf_exact_tenQ t st.date
  rw [pointUpdate_eq t st hE hF]
  by_cases hc : scoreOf t st.date t "10-Q" > st.score ∨
      (scoreOf t st.date t "10-Q" = st.score ∧ strLt st.date t = true)
  · rw [if_pos hc]
    rcases hV2 : valOf dp with _ | v
    · rw [hV2] at hV
      simp at hV
    · exact hs
  · rw [if_neg hc]
    have h1 : ¬(scoreOf t st.date t "10-Q" > st.score) := fun h => hc (Or.inl h)
    omega

/-- Invariant preservation: if a best state scoring at least 150 always
records the value of an exact-date 10-Q observation of the series, the same
holds after one more loop iteration on a member of the series. -/
theorem pointUpdate_good (t : String) (arr : List JsonValue) (st : BestState)
    (hst : 150 ≤ st.score → ∃ dq ∈ arr, endOf dq = some t ∧
      formOf dq = some "10-Q" ∧ valOf dq = some st.value)
    (a : JsonValue) (ha : a ∈ arr) :
    150 ≤ (pointUpdate t st a).score → ∃ dq ∈ arr, endOf dq = some t ∧
      formOf dq = some "10-Q" ∧ valOf dq = some (pointUpdate t st a).value := by
  rcases pointUpdate_cases t st a with h | ⟨d, f, v, hE, hF, hV, _, h⟩
  · rw [h]
    exact hst
  · rw [h]
    intro h150
    obtain ⟨hd, hf⟩ := eq_of_scoreOf_ge_150 h150
    subst hd
    subst hf
    exact ⟨a, ha, hE, hF, hV⟩

/-- C1: when a series contains an observation whose period-end date equals
the target date, whose form is "10-Q" and whose value is usable, the value
returned by `findValueForDate` is the value of such an observation — exact
quarterly matches score at least 150 while any observation lacking the exact
date or the 10-Q form scores at most 135, so a non-matching observation can
never end up selected. -/
theorem findValueForDate_exact_tenQ (arr : List JsonValue) (target : String)
    (dp : JsonValue) (hmem : dp ∈ arr) (hend : endOf dp = some target)
    (hform : formOf dp = some "10-Q") (hval : (valOf dp).isSome = true) :
    ∃ dq ∈ arr, endOf dq = some target ∧ formOf dq = some "10-Q" ∧
      valOf dq = some (findValueForDate arr target) := by
  have h150 : 150 ≤ (arr.foldl (pointUpdate target) ⟨0, "", 0⟩).score := by
    obtain ⟨l1, l2, hsplit⟩ := List.append_of_mem hmem
    rw [hsplit, List.foldl_append, List.foldl_cons]
    exact le_trans (pointUpdate_exact_tenQ_score target _ dp hend hform hval)
      (foldl_score_mono target l2 _)
  have inv : 150 ≤ (arr.foldl (pointUpdate target) ⟨0, "", 0⟩).score →
      ∃ dq ∈ arr, endOf dq = some target ∧ formOf dq = some "10-Q" ∧
        valOf dq = some (arr.foldl (pointUpdate target) ⟨0, "", 0⟩).value :=
    List.foldlRecOn arr (pointUpdate target) ⟨0, "", 0⟩
      (fun h => absurd h (by decide))
      (fun st hst a ha => pointUpdate_good target arr st hst a ha)
  exact inv h150

/-- C1 (witness): the exact-date 10-Q preference applied to a concrete
series whose second observation matches. -/
theorem findValueForDate_exact_tenQ_witness :
    (obsPoint "d" "10-Q" 7 ∈ exC1Series ∧
        endOf (obsPoint "d" "10-Q" 7) = some "d" ∧
        formOf (obsPoint "d" "10-Q" 7) = some "10-Q" ∧
        (valOf (obsPoint "d" "10-Q" 7)).isSome = true) ∧
      ∃ dq ∈ exC1Series, endOf dq = some "d" ∧ formOf dq = some "10-Q" ∧
        valOf dq = some (findValueForDate exC1Series "d") :=
  ⟨⟨List.mem_cons_of_mem _ (List.mem_cons_self _ _), rfl, rfl, rfl⟩,
    findValueForDate_exact_tenQ exC1Series "d" (obsPoint "d" "10-Q" 7)
      (List.mem_cons_of_mem _ (List.mem_cons_self _ _)) rfl rfl rfl⟩

/-- Located taxonomy under the hypotheses that the facts map is present and
carries "us-gaap" as an object. -/
theorem gaapOf_eq {facts : CompanyFacts} {factsMap usGaap : List (String × JsonValue)}
    (hf : facts.facts = some factsMap)
    (hg : lookupJson factsMap "us-gaap" = some (.obj usGaap)) :
    gaapOf facts = some usGaap := by
  unfold gaapOf
  simp only [hf, hg]

/-- Closed form of the cash-flow field extraction: each field is overwritten
only on a successful extraction. -/
theorem extractCashFlowDataGaap_eq (usGaap : List (String × JsonValue))
    (m : CashFlowMetrics) (rd : String) :
    extractCashFlowDataGaap usGaap m rd =
      { m with
        netCashFromOperatingActivities :=
          (extractMetric usGaap opCashTags rd).getD m.netCashFromOperatingActivities
        capitalExpenditures :=
          (extractMetric usGaap capExTags rd).getD m.capitalExpenditures } := by
  unfold extractCashFlowDataGaap
  rcases extractMetric usGaap opCashTags rd with _ | v1 <;>
    rcases extractMetric usGaap capExTags rd with _ | v2 <;> rfl

set_option maxHeartbeats 1000000 in
/-- Closed form of the EBITDA field extraction: each field is overwritten
only on a successful extraction, with the depreciation fallback adding
separately extracted figures. -/
theorem extractEBITDADataGaap_eq (usGaap : List (String × JsonValue))
    (m : EBITDAMetrics) (rd : String) :
    extractEBITDADataGaap usGaap m rd =
      { m with
        revenue := (extractMetric usGaap revenueTags rd).getD m.revenue
        netIncome := (extractMetric usGaap netIncomeTags rd).getD m.netIncome
        interestExpense := (extractMetric usGaap interestTags rd).getD m.interestExpense
        incomeTaxExpense := (extractMetric usGaap taxTags rd).getD m.incomeTaxExpense
        depreciationAndAmortization :=
          match extractMetric usGaap daTags rd with
          | some v => v
          | none =>
            match extractMetric usGaap depTags rd, extractMetric usGaap amortTags rd with
            | some d, some a => m.depreciationAndAmortization + d + a
            | some d, none => m.depreciationAndAmortization + d
            | none, some a => m.depreciationAndAmortization + a
            | none, none => m.depreciationAndAmortization } := by
  unfold extractEBITDADataGaap
  rcases extractMetric usGaap revenueTags rd with _ | v1 <;>
    rcases extractMetric usGaap netIncomeTags rd with _ | v2 <;>
    rcases extractMetric usGaap interestTags rd with _ | v3 <;>
    rcases extractMetric usGaap taxTags rd with _ | v4 <;>
    rcases extractMetric usGaap daTags rd with _ | v5 <;>
    rcases extractMetric usGaap depTags rd with _ | v6 <;>
    rcases extractMetric usGaap amortTags rd with _ | v7 <;> rfl

/-- C5: when the facts document contains the us-gaap taxonomy, the parse
operations succeed (individual extraction misses are only logged, and
`extractCashFlowData` / `extractEBITDAData` return without error), and every
metric field whose candidate extractions all miss is left at its zero
default. -/
theorem missing_facts_tolerated (facts : CompanyFacts)
    (factsMap usGaap : List (String × JsonValue)) (filing : Filing)
    (hf : facts.facts = some factsMap)
    (hg : lookupJson factsMap "us-gaap" = some (.obj usGaap)) :
    (∃ m, parseCashFlowMetricsFromFacts facts filing = some m ∧
        (extractMetric usGaap opCashTags filing.reportDate = none →
          m.netCashFromOperatingActivities = 0) ∧
        (extractMetric usGaap capExTags filing.reportDate = none →
          m.capitalExpenditures = 0)) ∧
      (∃ e, parseEBITDAMetricsFromFacts facts filing = some e ∧
        (extractMetric usGaap revenueTags filing.reportDate = none → e.revenue = 0) ∧
        (extractMetric usGaap netIncomeTags filing.reportDate = none → e.netIncome = 0) ∧
        (extractMetric usGaap interestTags filing.reportDate = none →
          e.interestExpense = 0) ∧
        (extractMetric usGaap taxTags filing.reportDate = none →
          e.incomeTaxExpense = 0) ∧
        (extractMetric usGaap daTags filing.reportDate = none →
          extractMetric usGaap depTags filing.reportDate = none →
          extractMetric usGaap amortTags filing.reportDate = none →
          e.depreciationAndAmortization = 0)) := by
  have hga := gaapOf_eq hf hg
  constructor
  · simp only [parseCashFlowMetricsFromFacts, extractCashFlowData, hga,
      extractCashFlowDataGaap_eq]
    refine ⟨_, rfl, ?_, ?_⟩ <;> intro h <;> simp [h]
  · simp only [parseEBITDAMetricsFromFacts, extractEBITDAData, hga,
      extractEBITDADataGaap_eq]
    split
    · refine ⟨_, rfl, ?_, ?_, ?_, ?_, ?_⟩
      · intro h; simp [h]
      · intro h; simp [h]
      · intro h; simp [h]
      · intro h; simp [h]
      · intro h1 h2 h3; simp [h1, h2, h3]
    · refine ⟨_, rfl, ?_, ?_, ?_, ?_, ?_⟩
      · intro h; simp [h]
      · intro h; simp [h]
      · intro h; simp [h]
      · intro h; simp [h]
      · intro h1 h2 h3; simp [h1, h2, h3]

/-- C5 (witness): the tolerance property applied to a concrete document with
an empty us-gaap taxonomy, where every extraction misses. -/
theorem missing_facts_tolerated_witness :
    exFactsW.facts = some [("us-gaap", .obj [])] ∧
      ((∃ m, parseCashFlowMetricsFromFacts exFactsW exFilingW = some m ∧
          (extractMetric [] opCashTags exFilingW.reportDate = none →
            m.netCashFromOperatingActivities = 0) ∧
          (extractMetric [] capExTags exFilingW.reportDate = none →
            m.capitalExpenditures = 0)) ∧
        (∃ e, parseEBITDAMetricsFromFacts exFactsW exFilingW = some e ∧
          (extractMetric [] revenueTags exFilingW.reportDate = none → e.revenue = 0) ∧
          (extractMetric [] netIncomeTags exFilingW.reportDate = none → e.netIncome = 0) ∧
          (extractMetric [] interestTags exFilingW.reportDate = none →
            e.interestExpense = 0) ∧
          (extractMetric [] taxTags exFilingW.reportDate = none →
            e.incomeTaxExpense = 0) ∧
          (extractMetric [] daTags exFilingW.reportDate = none →
            extractMetric [] depTags exFilingW.reportDate = none →
            extractMetric [] amortTags exFilingW.reportDate = none →
            e.depreciationAndAmortization = 0))) :=
  ⟨rfl, missing_facts_tolerated exFactsW [("us-gaap", .obj [])] [] exFilingW rfl rfl⟩

/-- First-hit search over an association list with at most one hit is
invariant under permutation of the list. -/
theorem findSome?_perm_of_single {α β : Type} (f : α → Option β) {l1 l2 : List α}
    (hp : l1.Perm l2) (h : l1.countP (fun a => (f a).isSome) ≤ 1) :
    l1.findSome? f = l2.findSome? f := by
  induction hp with
  | nil => rfl
  | cons x p ih =>
    rw [List.findSome?_cons, List.findSome?_cons]
    cases hfx : f x with
    | some b => rfl
    | none =>
      apply ih
      rw [List.countP_cons] at h
      omega
  | swap x y l =>
    rw [List.findSome?_cons, List.findSome?_cons,
      List.findSome?_cons, List.findSome?_cons]
    cases hfx : f x with
    | some b =>
      cases hfy : f y with
      | some c =>
        rw [List.countP_cons, List.countP_cons] at h
        simp [hfx, hfy] at h
      | none => rfl
    | none => rfl
  | trans p1 p2 ih1 ih2 =>
    rw [ih1 h, ih2 (by rw [p1.countP_eq] at h; exact h)]

/-- Iteration over a units list is its first-hit search. -/
theorem usdUnitsValue_eq_findSome? (units : List (String × JsonValue)) (t : String) :
    usdUnitsValue units t = units.findSome? (unitValue t) := by
  induction units with
  | nil => rfl
  | cons p rest ih =>
    rw [List.findSome?_cons]
    unfold usdUnitsValue
    cases unitValue t p with
    | some v => rfl
    | none => exact ih

/-- Only USD-named units can yield a value. -/
theorem unitValue_isSome_usd (t : String) (p : String × JsonValue)
    (h : (unitValue t p).isSome = true) : usdUnitName p.1 = true := by
  by_contra hu
  simp only [Bool.not_eq_true] at hu
  unfold unitValue at h
  rw [hu] at h
  simp at h

/-- C6 (counterexample): the same concept map presented in the two possible
iteration orders of its units map (Go map iteration order is unspecified and
varies between runs) makes `extractMetric` return 2 in one run and 3 in the
other, because two unit names contain "usd" and carry different series — so
two runs over one fixed document need not produce the same value. -/
theorem extractMetric_map_order_cex :
    extractMetric exC6GaapA ["T"] "d" = some 2 ∧
      extractMetric exC6GaapB ["T"] "d" = some 3 ∧
      exC6Units2.Perm exC6Units1 ∧
      some (2 : ℚ) ≠ some (3 : ℚ) := by
  refine ⟨rfl, rfl, ?_, by decide⟩
  exact List.Perm.swap _ _ _

/-- C6 (amended): the extraction is deterministic up to the iteration order
of each units map; for a tag whose units map contains at most one
USD-denominated unit name, the per-tag search and `extractMetric` itself are
invariant under the iteration order. -/
theorem extractMetric_deterministic_single_usd
    (u1 u2 : List (String × JsonValue)) (tag t : String)
    (hperm : u1.Perm u2)
    (hcount : u1.countP (fun p => usdUnitName p.1) ≤ 1) :
    usdUnitsValue u1 t = usdUnitsValue u2 t ∧
      extractMetric [(tag, .obj [("units", .obj u1)])] [tag] t =
        extractMetric [(tag, .obj [("units", .obj u2)])] [tag] t := by
  have hu : usdUnitsValue u1 t = usdUnitsValue u2 t := by
    rw [usdUnitsValue_eq_findSome?, usdUnitsValue_eq_findSome?]
    apply findSome?_perm_of_single _ hperm
    exact le_trans
      (List.countP_mono_left (fun a _ h => unitValue_isSome_usd t a h)) hcount
  have hl : ∀ u : List (String × JsonValue),
      tagValue [(tag, .obj [("units", .obj u)])] tag t = usdUnitsValue u t := by
    intro u
    unfold tagValue
    simp [lookupJson]
  refine ⟨hu, ?_⟩
  simp only [extractMetric, hl, hu]

/-- C6 (witness): invariance applied to a single-USD-unit map and the
identity permutation. -/
theorem extractMetric_deterministic_single_usd_witness :
    exC6SingleUnits.Perm exC6SingleUnits ∧
      exC6SingleUnits.countP (fun p => usdUnitName p.1) ≤ 1 ∧
      (usdUnitsValue exC6SingleUnits "d" = usdUnitsValue exC6SingleUnits "d" ∧
        extractMetric [("T", .obj [("units", .obj exC6SingleUnits)])] ["T"] "d" =
          extractMetric [("T", .obj [("units", .obj exC6SingleUnits)])] ["T"] "d") :=
  ⟨List.Perm.refl _, by decide,
    extractMetric_deterministic_single_usd exC6SingleUnits exC6SingleUnits "T" "d"
      (List.Perm.refl _) (by decide)⟩

/-- When the element function succeeds on every index, the sequenced map
succeeds with one output per index. -/
theorem optMap_some_of_all {f : ℕ → Option Filing} {l : List ℕ}
    (h : ∀ i ∈ l, (f i).isSome = true) :
    ∃ xs, optMap f l = some xs ∧ xs.length = l.length := by
  induction l with
  | nil => exact ⟨[], rfl, rfl⟩
  | cons i is ih =>
    obtain ⟨x, hx⟩ := Option.isSome_iff_exists.mp (h i (List.mem_cons_self i is))
    obtain ⟨xs, hxs, hlen⟩ := ih fun j hj => h j (List.mem_cons_of_mem i hj)
    refine ⟨x :: xs, ?_, by simp [hlen]⟩
    unfold optMap
    rw [hx, hxs]

/-- A successful sequenced map had success at every index. -/
theorem optMap_mem_isSome {f : ℕ → Option Filing} {l : List ℕ} {xs : List Filing}
    (h : optMap f l = some xs) : ∀ i ∈ l, (f i).isSome = true := by
  induction l generalizing xs with
  | nil =>
    intro i hi
    simp at hi
  | cons j js ih =>
    intro i hi
    unfold optMap at h
    cases hfj : f j with
    | none =>
      rw [hfj] at h
      exact absurd h (by simp)
    | some x =>
      rw [hfj] at h
      cases hrec : optMap f js with
      | none =>
        rw [hrec] at h
        simp at h
      | some ys =>
        rcases List.mem_cons.mp hi with rfl | hi2
        · simp [hfj]
        · exact ih hrec i hi2

/-- Under the parallel-array length precondition, every index below the
accession count parses. -/
theorem parseFilingAt_isSome (recent : String → List JsonValue) (i : ℕ)
    (hacc : i < (recent "accessionNumber").length)
    (hpre : ∀ k ∈ filingKeys, (recent "accessionNumber").length ≤ (recent k).length) :
    (parseFilingAt recent i).isSome = true := by
  have h : ∀ k ∈ filingKeys, ∃ v, (recent k)[i]? = some v := by
    intro k hk
    exact ⟨_, List.getElem?_eq_getElem (lt_of_lt_of_le hacc (hpre k hk))⟩
  obtain ⟨vA, hA⟩ : ∃ v, (recent "accessionNumber")[i]? = some v :=
    ⟨_, List.getElem?_eq_getElem hacc⟩
  obtain ⟨vB, hB⟩ := h "filingDate" (by simp [filingKeys])
  obtain ⟨vC, hC⟩ := h "reportDate" (by simp [filingKeys])
  obtain ⟨vD, hD⟩ := h "form" (by simp [filingKeys])
  obtain ⟨vE, hE⟩ := h "fileNumber" (by simp [filingKeys])
  obtain ⟨vF, hF⟩ := h "filmNumber" (by simp [filingKeys])
  obtain ⟨vG, hG⟩ := h "items" (by simp [filingKeys])
  obtain ⟨vH, hH⟩ := h "size" (by simp [filingKeys])
  obtain ⟨vI, hI⟩ := h "isXBRL" (by simp [filingKeys])
  obtain ⟨vJ, hJ⟩ := h "isInlineXBRL" (by simp [filingKeys])
  obtain ⟨vK, hK⟩ := h "primaryDocument" (by simp [filingKeys])
  obtain ⟨vL, hL⟩ := h "primaryDocDescription" (by simp [filingKeys])
  simp [parseFilingAt, hA, hB, hC, hD, hE, hF, hG, hH, hI, hJ, hK, hL]

/-- A parsed index has every parallel array long enough. -/
theorem parseFilingAt_isSome_keys {recent : String → List JsonValue} {i : ℕ}
    (h : (parseFilingAt recent i).isSome = true) :
    ∀ k ∈ filingKeys, i < (recent k).length := by
  obtain ⟨r, hr⟩ := Option.isSome_iff_exists.mp h
  unfold parseFilingAt at hr
  simp only [Option.pure_def, Option.bind_eq_bind, Option.bind_eq_some] at hr
  obtain ⟨a1, h1, a2, h2, a3, h3, a4, h4, a5, h5, a6, h6, a7, h7, a8, h8, a9,
    h9, a10, h10, a11, h11, a12, h12, -⟩ := hr
  intro k hk
  fin_cases hk
  · exact (List.getElem?_eq_some.mp h2).1
  · exact (List.getElem?_eq_some.mp h3).1
  · exact (List.getElem?_eq_some.mp h4).1
  · exact (List.getElem?_eq_some.mp h5).1
  · exact (List.getElem?_eq_some.mp h6).1
  · exact (List.getElem?_eq_some.mp h7).1
  · exact (List.getElem?_eq_some.mp h8).1
  · exact (List.getElem?_eq_some.mp h9).1
  · exact (List.getElem?_eq_some.mp h10).1
  · exact (List.getElem?_eq_some.mp h11).1
  · exact (List.getElem?_eq_some.mp h12).1

/-- C10: `parseFilings` returns the empty list on an empty accession array;
under the precondition that every parallel array is at least as long as the
accession array it returns one `Filing` per accession index; and when the
precondition fails on a nonempty accession array, it aborts (the Go code
panics on the out-of-range index). -/
theorem parseFilings_total (recent : String → List JsonValue) :
    ((recent "accessionNumber") = [] → parseFilings recent = some []) ∧
      ((∀ k ∈ filingKeys, (recent "accessionNumber").length ≤ (recent k).length) →
        ∃ l, parseFilings recent = some l ∧
          l.length = (recent "accessionNumber").length) ∧
      ((¬ ∀ k ∈ filingKeys, (recent "accessionNumber").length ≤ (recent k).length) →
        (recent "accessionNumber") ≠ [] → parseFilings recent = none) := by
  refine ⟨?_, ?_, ?_⟩
  · intro h
    simp [parseFilings, h]
  · intro hpre
    by_cases hc : (recent "accessionNumber").length = 0
    · refine ⟨[], ?_, by simp [hc]⟩
      simp [parseFilings, hc]
    · obtain ⟨xs, hxs, hlen⟩ := optMap_some_of_all
        (f := parseFilingAt recent) (l := List.range (recent "accessionNumber").length)
        (fun i hi => parseFilingAt_isSome recent i (List.mem_range.mp hi) hpre)
      refine ⟨xs, ?_, by rw [hlen, List.length_range]⟩
      simp only [parseFilings]
      rw [if_neg hc]
      exact hxs
  · intro hnpre hne
    cases hp : parseFilings recent with
    | none => rfl
    | some l =>
      exfalso
      apply hnpre
      intro k hk
      have hcount : (recent "accessionNumber").length ≠ 0 :=
        fun h => hne (List.length_eq_zero.mp h)
      have hall : ∀ i ∈ List.range (recent "accessionNumber").length,
          (parseFilingAt recent i).isSome = true := by
        simp only [parseFilings] at hp
        rw [if_neg hcount] at hp
        exact optMap_mem_isSome hp
      have hlast := parseFilingAt_isSome_keys
        (hall ((recent "accessionNumber").length - 1)
          (List.mem_range.mpr (by omega))) k hk
      omega

/-- C10 (witness): the precondition holds of the concrete two-filing map and
parsing yields one record per accession index. -/
theorem parseFilings_total_witness :
    (∀ k ∈ filingKeys, (exRecentW "accessionNumber").length ≤ (exRecentW k).length) ∧
      ∃ l, parseFilings exRecentW = some l ∧
        l.length = (exRecentW "accessionNumber").length :=
  ⟨by decide, (parseFilings_total exRecentW).2.1 (by decide)⟩

/-- Transitivity of the filing-date comparator used by the sort. -/
theorem filingLe_trans (a b c : Filing)
    (h1 : strLe b.filingDate a.filingDate = true)
    (h2 : strLe c.filingDate b.filingDate = true) :
    strLe c.filingDate a.filingDate = true :=
  charsLe_trans h2 h1

/-- Totality of the filing-date comparator used by the sort. -/
theorem filingLe_total (a b : Filing) :
    (strLe b.filingDate a.filingDate || strLe a.filingDate b.filingDate) = true := by
  rcases strLe_total b.filingDate a.filingDate with h | h <;> simp [h]

/-- The sorted filing list is a permutation of its input. -/
theorem sortByFilingDateDesc_perm (l : List Filing) :
    (sortByFilingDateDesc l).Perm l :=
  List.mergeSort_perm l _

/-- The sorted filing list is in descending filing-date order. -/
theorem sortByFilingDateDesc_sorted (l : List Filing) :
    (sortByFilingDateDesc l).Pairwise
      (fun a b => strLe b.filingDate a.filingDate = true) :=
  List.sorted_mergeSort
    (fun a b c hab hbc => filingLe_trans a b c hab hbc)
    (fun a b => filingLe_total a b) l

/-- C7: `GetMostRecent10Q` and `GetMostRecent4TenQs` keep exactly the parsed
filings whose form is "10-Q", sort them descending by filing date, and
return respectively the head of that sorted list (an error when no 10-Q
exists, a filing of maximal filing date otherwise) and its first
`min 4 n` elements. -/
theorem filing_selection (recent : String → List JsonValue)
    (hpre : ∀ k ∈ filingKeys, (recent "accessionNumber").length ≤ (recent k).length) :
    ∃ (filings sorted : List Filing),
      parseFilings recent = some filings ∧
      sorted.Perm (filings.filter fun f => f.form = "10-Q") ∧
      sorted.Pairwise (fun a b => strLe b.filingDate a.filingDate = true) ∧
      getMostRecent10Q recent = sorted.head? ∧
      getMostRecent4TenQs recent =
        (if sorted.isEmpty then none else some (sorted.take 4)) ∧
      (∀ f, sorted.head? = some f →
        ∀ g ∈ filings.filter (fun f2 => f2.form = "10-Q"),
          strLe g.filingDate f.filingDate = true) := by
  obtain ⟨filings, hpf, -⟩ := (parseFilings_total recent).2.1 hpre
  refine ⟨filings, sortByFilingDateDesc (filings.filter fun f => f.form = "10-Q"),
    hpf, sortByFilingDateDesc_perm _, sortByFilingDateDesc_sorted _, ?_, ?_, ?_⟩
  · simp only [getMostRecent10Q, hpf]
    by_cases he : (filings.filter fun f => f.form = "10-Q").isEmpty
    · rw [if_pos he]
      rw [List.isEmpty_iff] at he
      simp [sortByFilingDateDesc, he]
    · rw [if_neg he]
  · simp only [getMostRecent4TenQs, hpf]
    by_cases he : (filings.filter fun f => f.form = "10-Q").isEmpty
    · rw [if_pos he]
      rw [List.isEmpty_iff] at he
      simp [sortByFilingDateDesc, he]
    · rw [if_neg he]
      rw [if_neg ?_]
      intro hse
      apply he
      rw [List.isEmpty_iff] at hse ⊢
      have := (sortByFilingDateDesc_perm
        (filings.filter fun f => f.form = "10-Q")).symm
      rw [hse] at this
      exact this.eq_nil
  · intro f hf g hg
    have hperm := sortByFilingDateDesc_perm (filings.filter fun f => f.form = "10-Q")
    have hg2 : g ∈ sortByFilingDateDesc (filings.filter fun f => f.form = "10-Q") :=
      hperm.mem_iff.mpr hg
    have hsorted := sortByFilingDateDesc_sorted (filings.filter fun f => f.form = "10-Q")
    cases hs : sortByFilingDateDesc (filings.filter fun f => f.form = "10-Q") with
    | nil =>
      rw [hs] at hf
      simp at hf
    | cons f0 tail =>
      rw [hs] at hf
      simp only [List.head?_cons, Option.some.injEq] at hf
      subst hf
      rw [hs] at hg2 hsorted
      rcases List.mem_cons.mp hg2 with rfl | hgt
      · exact charsLe_refl _
      · exact List.rel_of_pairwise_cons hsorted hgt

/-- C7 (witness): the selection property applied to the concrete two-filing
map, whose arrays all have length 2. -/
theorem filing_selection_witness :
    (∀ k ∈ filingKeys, (exRecentW "accessionNumber").length ≤ (exRecentW k).length) ∧
      ∃ (filings sorted : List Filing),
        parseFilings exRecentW = some filings ∧
        sorted.Perm (filings.filter fun f => f.form = "10-Q") ∧
        sorted.Pairwise (fun a b => strLe b.filingDate a.filingDate = true) ∧
        getMostRecent10Q exRecentW = sorted.head? ∧
        getMostRecent4TenQs exRecentW =
          (if sorted.isEmpty then none else some (sorted.take 4)) ∧
        (∀ f, sorted.head? = some f →
          ∀ g ∈ filings.filter (fun f2 => f2.form = "10-Q"),
            strLe g.filingDate f.filingDate = true) :=
  ⟨by decide, filing_selection exRecentW (by decide)⟩
